import Mathlib

/-!
Shallow embedding of `simple-vector/simple_vector.h`: a growable contiguous
container `SimpleVector<Type>` built on a raw buffer owner `ArrayPtr<Type>`.

The buffer is modelled as a `List α` whose length is the number of allocated
slots (the buffer owner default-constructs every slot, so every slot holds a
value).  A container state is the triple of buffer, `size_` and `capacity_`.
Machine-level `size_t` arithmetic never overflows in the operations modelled
here (all arithmetic is small additions, doublings and `max`), so `Nat` is
used directly.

STL algorithm calls are modelled denotationally: `std::copy` and
`std::copy_backward` read each source slot before it is overwritten (forward
copy to the left, backward copy to the right), so the result is expressed in
terms of the pre-call buffer contents.
-/

/-- Models `std::copy(src.begin(), src.end(), dst.begin())` writing `src` over
the first `src.length` slots of `dst` (used with `src.length ≤ dst.length`). -/
def copyFront {α : Type} (src dst : List α) : List α :=
  src ++ dst.drop src.length

/-- Models the loop `for (it = begin+lo; it != begin+hi; ++it) *it = Type{};`
that default-constructs the slots `[lo, hi)` of the buffer `l`. -/
def fillRange {α : Type} [Inhabited α] (l : List α) (lo hi : Nat) : List α :=
  (List.range l.length).map
    (fun k => if lo ≤ k ∧ k < hi then default else l.getD k default)

/-- Models `std::copy_backward(begin+i, begin+n, begin+(n+1))`: the slots
`[i, n)` are shifted one slot to the right (slot `k` receives old slot `k-1`
for `i < k ≤ n`); backward iteration reads each old value before overwrite. -/
def copyBackwardOne {α : Type} [Inhabited α] (l : List α) (i n : Nat) : List α :=
  (List.range l.length).map
    (fun k => if i < k ∧ k ≤ n then l.getD (k - 1) default else l.getD k default)

/-- Models `std::copy(begin+i+1, begin+n+1, begin+i)`: the slots `[i+1, n+1)`
are shifted one slot to the left (slot `k` receives old slot `k+1` for
`i ≤ k < n`); forward iteration reads each old value before overwrite. -/
def copyForwardOne {α : Type} [Inhabited α] (l : List α) (i n : Nat) : List α :=
  (List.range l.length).map
    (fun k => if i ≤ k ∧ k < n then l.getD (k + 1) default else l.getD k default)

/-- State of a `SimpleVector<Type>`: `a` is the owned buffer (`a_`, one list
entry per allocated slot), `size` is `size_`, `capacity` is `capacity_`. -/
structure SimpleVector (α : Type) where
  a : List α
  size : Nat
  capacity : Nat
deriving DecidableEq

namespace SimpleVector

variable {α : Type} [Inhabited α]

/-- Live element sequence: the first `size` slots of the buffer. -/
def toList (v : SimpleVector α) : List α :=
  v.a.take v.size

/-- Member `IsEmpty()`: `GetSize() == 0`. -/
def IsEmpty (v : SimpleVector α) : Bool :=
  v.size == 0

/-- Default constructor: no buffer, `size_ = 0`, `capacity_ = 0`. -/
def mkDefault : SimpleVector α :=
  ⟨[], 0, 0⟩

/-- Constructor `SimpleVector(size, value)`: allocates `size` slots and fills
them with `value`. -/
def mkSized (n : Nat) (x : α) : SimpleVector α :=
  ⟨List.replicate n x, n, n⟩

/-- Constructor from `std::initializer_list`: allocates `init.size()` slots
(default-constructed by `ArrayPtr`) and copies the literal sequence in. -/
def mkFromList (l : List α) : SimpleVector α :=
  ⟨copyFront l (List.replicate l.length default), l.length, l.length⟩

/-- Constructor from `ReserveProxyObj`: `capacity` default slots, size 0. -/
def mkReserve (c : Nat) : SimpleVector α :=
  ⟨List.replicate c default, 0, c⟩

/-- Copy constructor: allocates `other.GetCapacity()` default slots, then
copies the `size` live elements of `other` to the front. -/
def copyCtor (other : SimpleVector α) : SimpleVector α :=
  ⟨copyFront (other.a.take other.size) (List.replicate other.capacity default),
   other.size, other.capacity⟩

/-- Move constructor: the source allocates a NEW buffer of `other` capacity
(`a_(other.GetCapacity())`), move-copies the live elements into it, then
zeroes `other.size_` and `other.capacity_` (`other.a_` keeps the old buffer).
Returns (constructed vector, state of `other` afterwards). -/
def moveCtor (other : SimpleVector α) : SimpleVector α × SimpleVector α :=
  (⟨copyFront (other.a.take other.size) (List.replicate other.capacity default),
    other.size, other.capacity⟩,
   ⟨other.a, 0, 0⟩)

/-- Number of element-level move operations performed by the
`std::copy(make_move_iterator(other.begin()), make_move_iterator(other.end()), begin())`
call inside the move constructor: the iterator range `[begin, end)` of the
source has exactly `other.size` elements, each moved individually. -/
def moveCtorTransfers (other : SimpleVector α) : Nat :=
  other.size

/-- Member `Clear()`: resets `size_` to 0, buffer and capacity untouched. -/
def Clear (v : SimpleVector α) : SimpleVector α :=
  { v with size := 0 }

/-- Member `Resize(new_size)`. If `new_size` fits the capacity, the newly
exposed slots `[size, new_size)` are default-constructed in place; otherwise
a buffer of `max(capacity*2, new_size)` slots is allocated, live elements are
moved over, the slots `[size, new_size)` are default-constructed, and the new
buffer is swapped in.  Finally `size_ = new_size`. -/
def Resize (v : SimpleVector α) (new_size : Nat) : SimpleVector α :=
  if new_size ≤ v.capacity then
    if new_size > v.size then
      { v with a := fillRange v.a v.size new_size, size := new_size }
    else
      { v with size := new_size }
  else
    let new_capacity := max (v.capacity * 2) new_size
    let new_a := copyFront (v.a.take v.size) (List.replicate new_capacity default)
    { a := fillRange new_a v.size new_size, size := new_size,
      capacity := new_capacity }

/-- Private member `ResizeForOneElement()`: grows via `Resize(size+1)` when
the buffer is full, otherwise just bumps `size_`. -/
def ResizeForOneElement (v : SimpleVector α) : SimpleVector α :=
  if v.size = v.capacity then v.Resize (v.size + 1)
  else { v with size := v.size + 1 }

/-- Member `PushBack(item)`: ensure room for one element, then write `item`
into the last live slot (`*(end() - 1)`). -/
def PushBack (v : SimpleVector α) (item : α) : SimpleVector α :=
  let v2 := v.ResizeForOneElement
  { v2 with a := v2.a.set (v2.size - 1) item }

/-- Private member `GetPosToInsert(pos)` with `pos = begin + i`: records the
distance `i`, grows for one element, then shifts `[i, size-1)` one slot right
with `std::copy_backward` when more than one element is live.  Returns the
updated state and the insertion index. -/
def GetPosToInsert (v : SimpleVector α) (i : Nat) : SimpleVector α × Nat :=
  let v2 := v.ResizeForOneElement
  let a2 := if v2.size > 1 then copyBackwardOne v2.a i (v2.size - 1) else v2.a
  ({ v2 with a := a2 }, i)

/-- Member `Insert(pos, value)` with `pos = begin + i` (precondition from the
assertion: `begin ≤ pos ≤ end`, i.e. `i ≤ size`): makes a gap at index `i`,
writes `value` there, and returns the new state with the insertion index. -/
def Insert (v : SimpleVector α) (i : Nat) (value : α) : SimpleVector α × Nat :=
  let p := v.GetPosToInsert i
  ({ p.1 with a := p.1.a.set p.2 value }, p.2)

/-- Member `PopBack()` (precondition from the assertion: not empty):
decrements `size_`. -/
def PopBack (v : SimpleVector α) : SimpleVector α :=
  { v with size := v.size - 1 }

/-- Member `Erase(pos)` with `pos = begin + i` (precondition from the
assertion: `begin ≤ pos < end`, i.e. `i < size`): shifts `[i+1, size)` one
slot left with `std::copy`, decrements `size_`, returns the erase index. -/
def Erase (v : SimpleVector α) (i : Nat) : SimpleVector α × Nat :=
  ({ v with a := copyForwardOne v.a i (v.size - 1), size := v.size - 1 }, i)

/-- Member `Reserve(new_capacity)`: if it exceeds the current capacity,
allocates exactly that many slots, copies the live elements over and swaps
the buffer in; otherwise does nothing. -/
def Reserve (v : SimpleVector α) (new_capacity : Nat) : SimpleVector α :=
  if new_capacity > v.capacity then
    { v with
      a := copyFront (v.a.take v.size) (List.replicate new_capacity default)
      capacity := new_capacity }
  else v

/-- Member `swap(other)`: exchanges buffer, size and capacity.  Returns the
pair (state of `*this` afterwards, state of `other` afterwards). -/
def swapSV (u w : SimpleVector α) : SimpleVector α × SimpleVector α :=
  (w, u)

/-- Copy assignment `operator=`.  `sameObj` models the `this != &rhs` address
check; `allocOk` models whether the buffer allocation inside the temporary
copy `rhs_copy` succeeds (on failure the exception propagates and `*this` is
untouched).  Returns (state of `*this` afterwards, completed-normally?). -/
def operatorAssign (lhs : SimpleVector α) (sameObj : Bool) (rhs : SimpleVector α)
    (allocOk : Bool) : SimpleVector α × Bool :=
  if sameObj then (lhs, true)
  else if rhs.IsEmpty then (lhs.Clear, true)
  else if allocOk then ((swapSV lhs (copyCtor rhs)).1, true)
  else (lhs, false)

/-- Member `At(index)`: throws `std::out_of_range` when `index >= GetSize()`,
otherwise returns the element `a_[index]`. -/
def At (v : SimpleVector α) (index : Nat) : Except String α :=
  if index ≥ v.size then Except.error "index out of range"
  else Except.ok (v.a.getD index default)

/-- Free `operator==`: same address (`sameObj`), or equal sizes and
`std::equal` over the first `lhs.size` elements of both buffers. -/
def eqOp [DecidableEq α] (sameObj : Bool) (lhs rhs : SimpleVector α) : Bool :=
  sameObj || (lhs.size == rhs.size && decide (lhs.a.take lhs.size = rhs.a.take lhs.size))

/-- Member `PushBack` iterated over a list of items (a sequence of appends). -/
def pushAll (v : SimpleVector α) (xs : List α) : SimpleVector α :=
  xs.foldl PushBack v

end SimpleVector

/-! ### Buffer combinator lemmas -/

theorem getD_eq_getElem_of_lt {α : Type} [Inhabited α] (l : List α) (k : Nat)
    (h : k < l.length) : l.getD k default = l[k] := by
  simp [List.getD_eq_getElem?_getD, List.getElem?_eq_getElem h]

theorem length_copyFront {α : Type} (src dst : List α) (h : src.length ≤ dst.length) :
    (copyFront src dst).length = dst.length := by
  simp [copyFront]
  omega

theorem take_copyFront {α : Type} (src dst : List α) :
    (copyFront src dst).take src.length = src := by
  simp [copyFront]

theorem getElem_copyFront {α : Type} (src dst : List α) (k : Nat)
    (hk : k < src.length) (hk2 : k < (copyFront src dst).length) :
    (copyFront src dst)[k] = src[k] := by
  simp [copyFront]
  rw [List.getElem_append_left hk]

theorem length_fillRange {α : Type} [Inhabited α] (l : List α) (lo hi : Nat) :
    (fillRange l lo hi).length = l.length := by
  simp [fillRange]

theorem getElem_fillRange {α : Type} [Inhabited α] (l : List α) (lo hi k : Nat)
    (hk : k < (fillRange l lo hi).length) :
    (fillRange l lo hi)[k] = if lo ≤ k ∧ k < hi then default else l.getD k default := by
  simp [fillRange] at hk ⊢

theorem length_copyBackwardOne {α : Type} [Inhabited α] (l : List α) (i n : Nat) :
    (copyBackwardOne l i n).length = l.length := by
  simp [copyBackwardOne]

theorem getElem_copyBackwardOne {α : Type} [Inhabited α] (l : List α) (i n k : Nat)
    (hk : k < (copyBackwardOne l i n).length) :
    (copyBackwardOne l i n)[k] =
      if i < k ∧ k ≤ n then l.getD (k - 1) default else l.getD k default := by
  simp [copyBackwardOne] at hk ⊢

theorem length_copyForwardOne {α : Type} [Inhabited α] (l : List α) (i n : Nat) :
    (copyForwardOne l i n).length = l.length := by
  simp [copyForwardOne]

theorem getElem_copyForwardOne {α : Type} [Inhabited α] (l : List α) (i n k : Nat)
    (hk : k < (copyForwardOne l i n).length) :
    (copyForwardOne l i n)[k] =
      if i ≤ k ∧ k < n then l.getD (k + 1) default else l.getD k default := by
  simp [copyForwardOne] at hk ⊢

/-! ### Characterization of the container operations -/

namespace SimpleVector

variable {α : Type} [Inhabited α]

theorem size_Resize (v : SimpleVector α) (n : Nat) : (v.Resize n).size = n := by
  unfold Resize
  split
  · split <;> rfl
  · rfl

theorem capacity_Resize (v : SimpleVector α) (n : Nat) :
    (v.Resize n).capacity =
      if n ≤ v.capacity then v.capacity else max (v.capacity * 2) n := by
  unfold Resize
  by_cases h : n ≤ v.capacity
  · rw [if_pos h, if_pos h]
    split <;> rfl
  · rw [if_neg h, if_neg h]

theorem length_a_Resize (v : SimpleVector α) (n : Nat)
    (hinv : v.size ≤ v.capacity) :
    (v.Resize n).a.length =
      if n ≤ v.capacity then v.a.length else max (v.capacity * 2) n := by
  unfold Resize
  by_cases h : n ≤ v.capacity
  · rw [if_pos h, if_pos h]
    split
    · exact length_fillRange v.a v.size n
    · rfl
  · rw [if_neg h, if_neg h]
    rw [length_fillRange, length_copyFront]
    · simp
    · simp
      omega

theorem le_length_copyFront {α : Type} (src dst : List α) :
    src.length ≤ (copyFront src dst).length := by
  simp [copyFront]

theorem getD_copyFront {α : Type} [Inhabited α] (src dst : List α) (k : Nat)
    (hk : k < src.length) :
    (copyFront src dst).getD k default = src.getD k default := by
  have h2 : k < (copyFront src dst).length :=
    Nat.lt_of_lt_of_le hk (le_length_copyFront src dst)
  rw [getD_eq_getElem_of_lt _ _ h2, getElem_copyFront _ _ _ hk h2,
    getD_eq_getElem_of_lt _ _ hk]

theorem getD_fillRange {α : Type} [Inhabited α] (l : List α) (lo hi k : Nat)
    (hk : k < l.length) :
    (fillRange l lo hi).getD k default =
      if lo ≤ k ∧ k < hi then default else l.getD k default := by
  have h2 : k < (fillRange l lo hi).length := by
    rw [length_fillRange]
    exact hk
  rw [getD_eq_getElem_of_lt _ _ h2, getElem_fillRange _ _ _ _ h2]

theorem getD_copyBackwardOne {α : Type} [Inhabited α] (l : List α) (i n k : Nat)
    (hk : k < l.length) :
    (copyBackwardOne l i n).getD k default =
      if i < k ∧ k ≤ n then l.getD (k - 1) default else l.getD k default := by
  have h2 : k < (copyBackwardOne l i n).length := by
    rw [length_copyBackwardOne]
    exact hk
  rw [getD_eq_getElem_of_lt _ _ h2, getElem_copyBackwardOne _ _ _ _ h2]

theorem getD_copyForwardOne {α : Type} [Inhabited α] (l : List α) (i n k : Nat)
    (hk : k < l.length) :
    (copyForwardOne l i n).getD k default =
      if i ≤ k ∧ k < n then l.getD (k + 1) default else l.getD k default := by
  have h2 : k < (copyForwardOne l i n).length := by
    rw [length_copyForwardOne]
    exact hk
  rw [getD_eq_getElem_of_lt _ _ h2, getElem_copyForwardOne _ _ _ _ h2]

theorem getD_take_of_lt {α : Type} [Inhabited α] (l : List α) (n k : Nat)
    (hk : k < n) (hk2 : k < l.length) :
    (l.take n).getD k default = l.getD k default := by
  have h2 : k < (l.take n).length := by
    simp
    omega
  rw [getD_eq_getElem_of_lt _ _ h2, getD_eq_getElem_of_lt _ _ hk2,
    List.getElem_take]

theorem getD_a_Resize (v : SimpleVector α) (n k : Nat)
    (hsz : v.size ≤ v.a.length) (hk : k < v.size) :
    (v.Resize n).a.getD k default = v.a.getD k default := by
  unfold Resize
  by_cases h : n ≤ v.capacity
  · rw [if_pos h]
    split
    · show (fillRange v.a v.size n).getD k default = v.a.getD k default
      rw [getD_fillRange _ _ _ _ (by omega), if_neg (by omega)]
    · rfl
  · rw [if_neg h]
    show (fillRange (copyFront (v.a.take v.size)
        (List.replicate (max (v.capacity * 2) n) default)) v.size n).getD k default
      = v.a.getD k default
    have hts : (v.a.take v.size).length = v.size := by
      simp
      omega
    have hcf : k < (copyFront (v.a.take v.size)
        (List.replicate (max (v.capacity * 2) n) default)).length := by
      have := le_length_copyFront (v.a.take v.size)
        (List.replicate (max (v.capacity * 2) n) (default : α))
      omega
    rw [getD_fillRange _ _ _ _ hcf, if_neg (by omega),
      getD_copyFront _ _ _ (by omega), getD_take_of_lt _ _ _ hk (by omega)]

theorem size_ResizeForOneElement (v : SimpleVector α) :
    v.ResizeForOneElement.size = v.size + 1 := by
  unfold ResizeForOneElement
  split
  · rw [size_Resize]
  · rfl

theorem capacity_ResizeForOneElement (v : SimpleVector α) :
    v.ResizeForOneElement.capacity =
      if v.size = v.capacity then max (v.capacity * 2) (v.size + 1)
      else v.capacity := by
  unfold ResizeForOneElement
  by_cases h : v.size = v.capacity
  · rw [if_pos h, if_pos h, capacity_Resize, if_neg (by omega)]
  · rw [if_neg h, if_neg h]

theorem le_capacity_ResizeForOneElement (v : SimpleVector α)
    (hinv : v.size ≤ v.capacity) :
    v.size + 1 ≤ v.ResizeForOneElement.capacity := by
  rw [capacity_ResizeForOneElement]
  split
  · exact Nat.le_max_right _ _
  · omega

theorem length_a_ResizeForOneElement (v : SimpleVector α)
    (hlen : v.a.length = v.capacity) (hinv : v.size ≤ v.capacity) :
    v.ResizeForOneElement.a.length = v.ResizeForOneElement.capacity := by
  unfold ResizeForOneElement
  by_cases h : v.size = v.capacity
  · rw [if_pos h, length_a_Resize _ _ hinv, capacity_Resize,
      if_neg (by omega), if_neg (by omega)]
  · rw [if_neg h]
    exact hlen

theorem getD_a_ResizeForOneElement (v : SimpleVector α) (k : Nat)
    (hsz : v.size ≤ v.a.length) (hk : k < v.size) :
    v.ResizeForOneElement.a.getD k default = v.a.getD k default := by
  unfold ResizeForOneElement
  by_cases h : v.size = v.capacity
  · rw [if_pos h]
    exact getD_a_Resize v (v.size + 1) k hsz hk
  · rw [if_neg h]

theorem size_PushBack (v : SimpleVector α) (x : α) :
    (v.PushBack x).size = v.size + 1 := by
  unfold PushBack
  rw [size_ResizeForOneElement]

theorem capacity_PushBack (v : SimpleVector α) (x : α) :
    (v.PushBack x).capacity =
      if v.size = v.capacity then max (v.capacity * 2) (v.size + 1)
      else v.capacity := by
  unfold PushBack
  rw [capacity_ResizeForOneElement]

theorem getD_append_left {β : Type} [Inhabited β] (l₁ l₂ : List β) (k : Nat)
    (hk : k < l₁.length) :
    (l₁ ++ l₂).getD k default = l₁.getD k default := by
  have h2 : k < (l₁ ++ l₂).length := by
    simp
    omega
  rw [getD_eq_getElem_of_lt _ _ h2, getD_eq_getElem_of_lt _ _ hk]
  exact List.getElem_append_left hk

theorem getD_append_right {β : Type} [Inhabited β] (l₁ l₂ : List β) (k : Nat)
    (hk : l₁.length ≤ k) (hk2 : k - l₁.length < l₂.length) :
    (l₁ ++ l₂).getD k default = l₂.getD (k - l₁.length) default := by
  have h2 : k < (l₁ ++ l₂).length := by
    simp
    omega
  rw [getD_eq_getElem_of_lt _ _ h2, getD_eq_getElem_of_lt _ _ hk2]
  exact List.getElem_append_right hk

theorem getD_drop_add {β : Type} [Inhabited β] (l : List β) (m j : Nat)
    (h : m + j < l.length) :
    (l.drop m).getD j default = l.getD (m + j) default := by
  have h1 : j < (l.drop m).length := by
    simp
    omega
  rw [getD_eq_getElem_of_lt _ _ h1, getD_eq_getElem_of_lt _ _ h]
  exact List.getElem_drop ..

theorem getD_set_of_ne {β : Type} [Inhabited β] (l : List β) (i : Nat) (x : β)
    (k : Nat) (h : i ≠ k) (hk : k < l.length) :
    (l.set i x).getD k default = l.getD k default := by
  have h2 : k < (l.set i x).length := by simpa using hk
  rw [getD_eq_getElem_of_lt _ _ h2, getD_eq_getElem_of_lt _ _ hk]
  rw [List.getElem_set_ne h]

theorem getD_set_self_of_lt {β : Type} [Inhabited β] (l : List β) (i : Nat)
    (x : β) (h : i < l.length) :
    (l.set i x).getD i default = x := by
  have h2 : i < (l.set i x).length := by simpa using h
  rw [getD_eq_getElem_of_lt _ _ h2]
  exact List.getElem_set_self h2

theorem take_eq_of_getD {β : Type} [Inhabited β] (l₁ l₂ : List β) (n : Nat)
    (h₁ : n ≤ l₁.length) (h₂ : n ≤ l₂.length)
    (h : ∀ k, k < n → l₁.getD k default = l₂.getD k default) :
    l₁.take n = l₂.take n := by
  apply List.ext_getElem
  · simp
    omega
  · intro i hi₁ hi₂
    have hin : i < n := by
      simp at hi₁
      omega
    rw [← getD_eq_getElem_of_lt _ _ hi₁, ← getD_eq_getElem_of_lt _ _ hi₂,
      getD_take_of_lt _ _ _ hin (by omega), getD_take_of_lt _ _ _ hin (by omega)]
    exact h i hin

theorem take_succ_set {β : Type} (l : List β) (s : Nat) (x : β)
    (h : s < l.length) :
    (l.set s x).take (s + 1) = l.take s ++ [x] := by
  induction l generalizing s with
  | nil => simp at h
  | cons y ys ih =>
    cases s with
    | zero => simp
    | succ s =>
      simp only [List.set, List.take, List.cons_append]
      rw [ih s (by simpa using h)]

theorem le_length_a_ResizeForOneElement (v : SimpleVector α)
    (hsz : v.size ≤ v.a.length) :
    v.size ≤ v.ResizeForOneElement.a.length := by
  unfold ResizeForOneElement
  by_cases h : v.size = v.capacity
  · rw [if_pos h, length_a_Resize _ _ (by omega), if_neg (by omega)]
    have := Nat.le_max_right (v.capacity * 2) (v.size + 1)
    omega
  · rw [if_neg h]
    exact hsz

theorem lt_length_a_ResizeForOneElement (v : SimpleVector α)
    (hlen : v.a.length = v.capacity) (hinv : v.size ≤ v.capacity) :
    v.size < v.ResizeForOneElement.a.length := by
  rw [length_a_ResizeForOneElement v hlen hinv]
  have := le_capacity_ResizeForOneElement v hinv
  omega

theorem take_a_ResizeForOneElement (v : SimpleVector α)
    (hsz : v.size ≤ v.a.length) :
    v.ResizeForOneElement.a.take v.size = v.a.take v.size := by
  apply take_eq_of_getD _ _ _ (le_length_a_ResizeForOneElement v hsz) hsz
  intro k hk
  exact getD_a_ResizeForOneElement v k hsz hk

theorem toList_PushBack (v : SimpleVector α) (x : α)
    (hlen : v.a.length = v.capacity) (hinv : v.size ≤ v.capacity) :
    (v.PushBack x).toList = v.toList ++ [x] := by
  have hsz : v.size ≤ v.a.length := by omega
  show (v.ResizeForOneElement.a.set (v.ResizeForOneElement.size - 1) x).take
      v.ResizeForOneElement.size = v.toList ++ [x]
  rw [size_ResizeForOneElement]
  simp only [Nat.add_sub_cancel]
  rw [take_succ_set _ _ _ (lt_length_a_ResizeForOneElement v hlen hinv)]
  rw [take_a_ResizeForOneElement v hsz]
  rfl

theorem length_a_PushBack (v : SimpleVector α) (x : α)
    (hlen : v.a.length = v.capacity) (hinv : v.size ≤ v.capacity) :
    (v.PushBack x).a.length = (v.PushBack x).capacity := by
  show (v.ResizeForOneElement.a.set (v.ResizeForOneElement.size - 1) x).length
      = v.ResizeForOneElement.capacity
  rw [List.length_set]
  exact length_a_ResizeForOneElement v hlen hinv

theorem size_le_capacity_PushBack (v : SimpleVector α) (x : α)
    (hinv : v.size ≤ v.capacity) :
    (v.PushBack x).size ≤ (v.PushBack x).capacity := by
  rw [size_PushBack]
  show v.size + 1 ≤ v.ResizeForOneElement.capacity
  exact le_capacity_ResizeForOneElement v hinv

theorem size_pushAll (v : SimpleVector α) (xs : List α) :
    (v.pushAll xs).size = v.size + xs.length := by
  induction xs generalizing v with
  | nil => rfl
  | cons y ys ih =>
    show ((v.PushBack y).pushAll ys).size = v.size + (ys.length + 1)
    rw [ih, size_PushBack]
    omega

theorem snd_GetPosToInsert (v : SimpleVector α) (i : Nat) :
    (v.GetPosToInsert i).2 = i := rfl

theorem size_fst_GetPosToInsert (v : SimpleVector α) (i : Nat) :
    (v.GetPosToInsert i).1.size = v.size + 1 := by
  show v.ResizeForOneElement.size = v.size + 1
  exact size_ResizeForOneElement v

theorem capacity_fst_GetPosToInsert (v : SimpleVector α) (i : Nat) :
    (v.GetPosToInsert i).1.capacity = v.ResizeForOneElement.capacity := rfl

theorem length_a_fst_GetPosToInsert (v : SimpleVector α) (i : Nat) :
    (v.GetPosToInsert i).1.a.length = v.ResizeForOneElement.a.length := by
  show (if v.ResizeForOneElement.size > 1 then
      copyBackwardOne v.ResizeForOneElement.a i (v.ResizeForOneElement.size - 1)
    else v.ResizeForOneElement.a).length = v.ResizeForOneElement.a.length
  split
  · exact length_copyBackwardOne _ _ _
  · rfl

theorem getD_a_fst_GetPosToInsert (v : SimpleVector α) (i k : Nat)
    (hi : i ≤ v.size) (hk : k < v.ResizeForOneElement.a.length) :
    (v.GetPosToInsert i).1.a.getD k default =
      if i < k ∧ k ≤ v.size
      then v.ResizeForOneElement.a.getD (k - 1) default
      else v.ResizeForOneElement.a.getD k default := by
  show (if v.ResizeForOneElement.size > 1 then
      copyBackwardOne v.ResizeForOneElement.a i (v.ResizeForOneElement.size - 1)
    else v.ResizeForOneElement.a).getD k default = _
  rw [size_ResizeForOneElement]
  by_cases h : v.size + 1 > 1
  · rw [if_pos h, getD_copyBackwardOne _ _ _ _ hk]
    simp only [Nat.add_sub_cancel]
  · rw [if_neg h, if_neg (by omega)]

theorem size_Insert (v : SimpleVector α) (i : Nat) (x : α) :
    (v.Insert i x).1.size = v.size + 1 := by
  show (v.GetPosToInsert i).1.size = v.size + 1
  exact size_fst_GetPosToInsert v i

theorem snd_Insert (v : SimpleVector α) (i : Nat) (x : α) :
    (v.Insert i x).2 = i := rfl

theorem capacity_Insert (v : SimpleVector α) (i : Nat) (x : α) :
    (v.Insert i x).1.capacity = v.ResizeForOneElement.capacity := rfl

theorem length_a_Insert (v : SimpleVector α) (i : Nat) (x : α) :
    (v.Insert i x).1.a.length = v.ResizeForOneElement.a.length := by
  show ((v.GetPosToInsert i).1.a.set (v.GetPosToInsert i).2 x).length = _
  rw [List.length_set]
  exact length_a_fst_GetPosToInsert v i

theorem getD_snoc_mid {β : Type} [Inhabited β] (A B : List β) (x : β) (k : Nat)
    (h : A.length = k) : (A ++ x :: B).getD k default = x := by
  subst h
  rw [getD_append_right _ _ _ (Nat.le_refl _) (by simp)]
  simp

theorem getD_append_cons_right {β : Type} [Inhabited β] (A B : List β) (x : β)
    (k : Nat) (h : A.length < k) (hb : k - A.length - 1 < B.length) :
    (A ++ x :: B).getD k default = B.getD (k - A.length - 1) default := by
  rw [getD_append_right _ _ _ (by omega) (by simp; omega)]
  rw [show k - A.length = (k - A.length - 1) + 1 from by omega]
  simp

theorem toList_Insert (v : SimpleVector α) (i : Nat) (x : α)
    (hi : i ≤ v.size) (hlen : v.a.length = v.capacity)
    (hinv : v.size ≤ v.capacity) :
    (v.Insert i x).1.toList = v.toList.take i ++ x :: v.toList.drop i := by
  have hsz : v.size ≤ v.a.length := by omega
  have hRs : v.size + 1 ≤ v.ResizeForOneElement.a.length :=
    lt_length_a_ResizeForOneElement v hlen hinv
  have hIle : v.size + 1 ≤ (v.Insert i x).1.a.length := by
    rw [length_a_Insert]
    exact hRs
  unfold toList
  rw [size_Insert]
  apply List.ext_getElem
  · simp only [List.length_take, List.length_append, List.length_cons,
      List.length_drop]
    omega
  · intro k h1 h2
    have hk : k < v.size + 1 := by
      simp only [List.length_take] at h1
      omega
    have hins : k < (v.Insert i x).1.a.length := by omega
    have hgp : k < (v.GetPosToInsert i).1.a.length := by
      rw [length_a_fst_GetPosToInsert]
      omega
    have hA : ((v.a.take v.size).take i).length = i := by
      simp only [List.length_take]
      omega
    have hB : ((v.a.take v.size).drop i).length = v.size - i := by
      simp only [List.length_drop, List.length_take]
      omega
    rw [← getD_eq_getElem_of_lt _ _ h1, ← getD_eq_getElem_of_lt _ _ h2,
      getD_take_of_lt _ _ _ hk hins]
    show ((v.GetPosToInsert i).1.a.set (v.GetPosToInsert i).2 x).getD k default = _
    rw [snd_GetPosToInsert]
    by_cases hki : k = i
    · rw [hki, getD_set_self_of_lt _ _ _ (by omega),
        getD_snoc_mid _ _ _ _ hA]
    · rw [getD_set_of_ne _ _ _ _ (fun hx => hki hx.symm) hgp,
        getD_a_fst_GetPosToInsert v i k hi (by omega)]
      by_cases hik : i < k ∧ k ≤ v.size
      · rw [if_pos hik, getD_a_ResizeForOneElement v _ hsz (by omega),
          getD_append_cons_right _ _ _ _ (by rw [hA]; omega)
            (by rw [hA, hB]; omega)]
        rw [hA]
        rw [getD_drop_add _ _ _ (by simp only [List.length_take]; omega)]
        rw [show i + (k - i - 1) = k - 1 from by omega]
        rw [getD_take_of_lt _ _ _ (by omega) (by omega)]
      · rw [if_neg hik]
        have hki2 : k < i := by omega
        rw [getD_a_ResizeForOneElement v _ hsz (by omega),
          getD_append_left _ _ _ (by rw [hA]; omega)]
        rw [getD_take_of_lt _ _ _ (by omega)
            (by simp only [List.length_take]; omega)]
        rw [getD_take_of_lt _ _ _ (by omega) (by omega)]

theorem size_Erase (v : SimpleVector α) (i : Nat) :
    (v.Erase i).1.size = v.size - 1 := rfl

theorem capacity_Erase (v : SimpleVector α) (i : Nat) :
    (v.Erase i).1.capacity = v.capacity := rfl

theorem snd_Erase (v : SimpleVector α) (i : Nat) : (v.Erase i).2 = i := rfl

theorem length_a_Erase (v : SimpleVector α) (i : Nat) :
    (v.Erase i).1.a.length = v.a.length := by
  show (copyForwardOne v.a i (v.size - 1)).length = v.a.length
  exact length_copyForwardOne _ _ _

theorem toList_Erase (v : SimpleVector α) (i : Nat)
    (hi : i < v.size) (hsz : v.size ≤ v.a.length) :
    (v.Erase i).1.toList = v.toList.take i ++ v.toList.drop (i + 1) := by
  unfold toList
  show (copyForwardOne v.a i (v.size - 1)).take (v.size - 1) = _
  have hA : ((v.a.take v.size).take i).length = i := by
    simp only [List.length_take]
    omega
  apply List.ext_getElem
  · simp only [List.length_take, List.length_append, List.length_drop,
      length_copyForwardOne]
    omega
  · intro k h1 h2
    have hk : k < v.size - 1 := by
      simp only [List.length_take, length_copyForwardOne] at h1
      omega
    rw [← getD_eq_getElem_of_lt _ _ h1, ← getD_eq_getElem_of_lt _ _ h2,
      getD_take_of_lt _ _ _ hk (by rw [length_copyForwardOne]; omega),
      getD_copyForwardOne _ _ _ _ (by omega)]
    by_cases hik : i ≤ k ∧ k < v.size - 1
    · rw [if_pos hik,
        getD_append_right _ _ _ (by rw [hA]; omega) (by simp; omega)]
      rw [hA]
      rw [getD_drop_add _ _ _ (by simp only [List.length_take]; omega)]
      rw [show i + 1 + (k - i) = k + 1 from by omega]
      rw [getD_take_of_lt _ _ _ (by omega) (by omega)]
    · rw [if_neg hik]
      have hki : k < i := by omega
      rw [getD_append_left _ _ _ (by rw [hA]; omega)]
      rw [getD_take_of_lt _ _ _ (by omega)
          (by simp only [List.length_take]; omega)]
      rw [getD_take_of_lt _ _ _ (by omega) (by omega)]

theorem take_toList_Erase (v : SimpleVector α) (i : Nat)
    (hi : i < v.size) (hsz : v.size ≤ v.a.length) :
    (v.Erase i).1.toList.take i = v.toList.take i := by
  rw [toList_Erase v i hi hsz]
  have hA : (v.toList.take i).length = i := by
    unfold toList
    simp only [List.length_take]
    omega
  have h := List.take_left (v.toList.take i) (v.toList.drop (i + 1))
  rw [hA] at h
  rw [h]

theorem size_Reserve (v : SimpleVector α) (n : Nat) :
    (v.Reserve n).size = v.size := by
  unfold Reserve
  split <;> rfl

theorem capacity_Reserve (v : SimpleVector α) (n : Nat) :
    (v.Reserve n).capacity = if n > v.capacity then n else v.capacity := by
  unfold Reserve
  split <;> rfl

theorem size_copyCtor (v : SimpleVector α) : (copyCtor v).size = v.size := rfl

theorem capacity_copyCtor (v : SimpleVector α) :
    (copyCtor v).capacity = v.capacity := rfl

theorem toList_copyCtor (v : SimpleVector α) (hsz : v.size ≤ v.a.length) :
    (copyCtor v).toList = v.toList := by
  unfold toList copyCtor
  show (copyFront (v.a.take v.size) _).take v.size = v.a.take v.size
  have hA : (v.a.take v.size).length = v.size := by
    simp only [List.length_take]
    omega
  have h := take_copyFront (v.a.take v.size) (List.replicate v.capacity (default : α))
  rw [hA] at h
  exact h

theorem fst_moveCtor (v : SimpleVector α) : (moveCtor v).1 = copyCtor v := rfl

theorem snd_moveCtor (v : SimpleVector α) :
    (moveCtor v).2 = ⟨v.a, 0, 0⟩ := rfl

omit [Inhabited α] in
theorem eqOp_true_of [DecidableEq α] (lhs rhs : SimpleVector α)
    (hs : lhs.size = rhs.size) (ht : lhs.toList = rhs.toList) :
    eqOp false lhs rhs = true := by
  unfold eqOp
  simp only [Bool.false_or, Bool.and_eq_true, beq_iff_eq, decide_eq_true_eq]
  refine ⟨hs, ?_⟩
  have h2 : rhs.a.take lhs.size = rhs.a.take rhs.size := by rw [hs]
  rw [h2]
  exact ht

theorem operatorAssign_self (lhs rhs : SimpleVector α) (ok : Bool) :
    lhs.operatorAssign true rhs ok = (lhs, true) := rfl

theorem operatorAssign_empty (lhs rhs : SimpleVector α) (ok : Bool)
    (h : rhs.size = 0) :
    lhs.operatorAssign false rhs ok = (lhs.Clear, true) := by
  unfold operatorAssign IsEmpty
  simp [h]

theorem operatorAssign_copy (lhs rhs : SimpleVector α) (h : rhs.size ≠ 0) :
    lhs.operatorAssign false rhs true = (copyCtor rhs, true) := by
  unfold operatorAssign IsEmpty swapSV
  simp [h]

theorem operatorAssign_fail (lhs rhs : SimpleVector α) (h : rhs.size ≠ 0) :
    lhs.operatorAssign false rhs false = (lhs, false) := by
  unfold operatorAssign IsEmpty
  simp [h]

/-- Container states reachable through the public constructors and
operations, each mutating operation invoked under the precondition its
`assert` documents. -/
inductive Reachable : SimpleVector α → Prop where
  | mkDefaultR : Reachable mkDefault
  | mkSizedR (n : Nat) (x : α) : Reachable (mkSized n x)
  | mkFromListR (l : List α) : Reachable (mkFromList l)
  | mkReserveR (c : Nat) : Reachable (mkReserve c)
  | copyR (v : SimpleVector α) : Reachable v → Reachable (copyCtor v)
  | moveDstR (v : SimpleVector α) : Reachable v → Reachable (moveCtor v).1
  | moveSrcR (v : SimpleVector α) : Reachable v → Reachable (moveCtor v).2
  | pushR (v : SimpleVector α) (x : α) : Reachable v → Reachable (v.PushBack x)
  | insertR (v : SimpleVector α) (i : Nat) (x : α) : i ≤ v.size →
      Reachable v → Reachable (v.Insert i x).1
  | eraseR (v : SimpleVector α) (i : Nat) : i < v.size →
      Reachable v → Reachable (v.Erase i).1
  | popR (v : SimpleVector α) : 0 < v.size → Reachable v → Reachable v.PopBack
  | resizeR (v : SimpleVector α) (n : Nat) : Reachable v → Reachable (v.Resize n)
  | reserveR (v : SimpleVector α) (n : Nat) : Reachable v →
      Reachable (v.Reserve n)
  | clearR (v : SimpleVector α) : Reachable v → Reachable v.Clear
  | swapLR (u w : SimpleVector α) : Reachable u → Reachable w →
      Reachable (swapSV u w).1
  | swapRR (u w : SimpleVector α) : Reachable u → Reachable w →
      Reachable (swapSV u w).2
  | assignR (u w : SimpleVector α) (sameObj allocOk : Bool) : Reachable u →
      Reachable w → Reachable (u.operatorAssign sameObj w allocOk).1

end SimpleVector

namespace SimpleVector

variable {α : Type} [Inhabited α]

omit [Inhabited α] in
theorem size_le_capacity_Clear (v : SimpleVector α) :
    v.Clear.size ≤ v.Clear.capacity := Nat.zero_le _

theorem size_le_capacity_Resize (v : SimpleVector α) (n : Nat) :
    (v.Resize n).size ≤ (v.Resize n).capacity := by
  rw [size_Resize, capacity_Resize]
  split
  · assumption
  · exact Nat.le_max_right _ _

theorem size_le_capacity_Insert (v : SimpleVector α) (i : Nat) (x : α)
    (hinv : v.size ≤ v.capacity) :
    (v.Insert i x).1.size ≤ (v.Insert i x).1.capacity := by
  rw [size_Insert, capacity_Insert]
  exact le_capacity_ResizeForOneElement v hinv

theorem size_le_capacity_assign (u w : SimpleVector α) (so ok : Bool)
    (hu : u.size ≤ u.capacity) (hw : w.size ≤ w.capacity) :
    (u.operatorAssign so w ok).1.size ≤ (u.operatorAssign so w ok).1.capacity := by
  cases so with
  | true => exact hu
  | false =>
    by_cases h0 : w.size = 0
    · rw [operatorAssign_empty _ _ _ h0]
      exact Nat.zero_le _
    · cases ok with
      | true =>
        rw [operatorAssign_copy _ _ h0]
        exact hw
      | false =>
        rw [operatorAssign_fail _ _ h0]
        exact hu

end SimpleVector

/-- C8: every container state reachable through the constructors, `PushBack`,
`Insert`, `Erase`, `PopBack`, `Resize`, `Reserve`, `Clear`, `swap` and
assignment satisfies the invariant `size ≤ capacity`. -/
theorem size_le_capacity_reachable {α : Type} [Inhabited α]
    (v : SimpleVector α) (h : SimpleVector.Reachable v) :
    v.size ≤ v.capacity := by
  induction h with
  | mkDefaultR => exact Nat.le_refl 0
  | mkSizedR n x => exact Nat.le_refl n
  | mkFromListR l => exact Nat.le_refl _
  | mkReserveR c => exact Nat.zero_le c
  | copyR w _ ih => exact ih
  | moveDstR w _ ih => exact ih
  | moveSrcR w _ ih => exact Nat.le_refl 0
  | pushR w x _ ih => exact SimpleVector.size_le_capacity_PushBack w x ih
  | insertR w i x hi _ ih => exact SimpleVector.size_le_capacity_Insert w i x ih
  | eraseR w i hi _ ih =>
    rw [SimpleVector.size_Erase, SimpleVector.capacity_Erase]
    omega
  | popR w hp _ ih =>
    show w.size - 1 ≤ w.capacity
    omega
  | resizeR w n _ ih => exact SimpleVector.size_le_capacity_Resize w n
  | reserveR w n _ ih =>
    rw [SimpleVector.size_Reserve, SimpleVector.capacity_Reserve]
    split <;> omega
  | clearR w _ ih => exact Nat.zero_le _
  | swapLR u w _ _ ihu ihw => exact ihw
  | swapRR u w _ _ ihu ihw => exact ihu
  | assignR u w so ok _ _ ihu ihw =>
    exact SimpleVector.size_le_capacity_assign u w so ok ihu ihw

/-- C8 witness: a concrete reachable state (two pushes onto a list-literal
container, then an erase) satisfies the invariant. -/
theorem size_le_capacity_reachable_witness :
    (((SimpleVector.mkFromList ([1, 2] : List Int)).PushBack 7).Erase 0).1.size
      ≤ (((SimpleVector.mkFromList ([1, 2] : List Int)).PushBack 7).Erase 0).1.capacity :=
  size_le_capacity_reachable _
    (SimpleVector.Reachable.eraseR _ 0 (by decide)
      (SimpleVector.Reachable.pushR _ 7
        (SimpleVector.Reachable.mkFromListR [1, 2])))

/-! ### Claim theorems -/

/-- C1: whenever an operation must grow the buffer (`Resize` above the
current capacity, or `PushBack`/`Insert` on a full container) the new
capacity is `max(old capacity * 2, requested size)`; starting from the empty
container, after N appends the size is N; and a capacity-0 container growing
by one element gets capacity 1. -/
theorem growth_policy {α : Type} [Inhabited α] (v w : SimpleVector α)
    (n : Nat) (x y : α) (xs : List α)
    (hn : v.capacity < n) (hfull : w.size = w.capacity) :
    (v.Resize n).capacity = max (v.capacity * 2) n
    ∧ (w.PushBack x).capacity = max (w.capacity * 2) (w.size + 1)
    ∧ ((w.Insert 0 x).1).capacity = max (w.capacity * 2) (w.size + 1)
    ∧ ((SimpleVector.mkDefault : SimpleVector α).pushAll xs).size = xs.length
    ∧ ((SimpleVector.mkDefault : SimpleVector α).PushBack y).capacity = 1 := by
  refine ⟨?_, ?_, ?_, ?_, ?_⟩
  · rw [SimpleVector.capacity_Resize, if_neg (by omega)]
  · rw [SimpleVector.capacity_PushBack, if_pos hfull]
  · rw [SimpleVector.capacity_Insert,
      SimpleVector.capacity_ResizeForOneElement, if_pos hfull]
  · rw [SimpleVector.size_pushAll]
    simp [SimpleVector.mkDefault]
  · rfl

/-- C1 witness: the growth rule instantiated on the empty `Int` container. -/
theorem growth_policy_witness :
    (SimpleVector.mkDefault : SimpleVector Int).capacity < 2
    ∧ (SimpleVector.mkDefault : SimpleVector Int).size
        = (SimpleVector.mkDefault : SimpleVector Int).capacity
    ∧ (((SimpleVector.mkDefault : SimpleVector Int).Resize 2).capacity
        = max ((SimpleVector.mkDefault : SimpleVector Int).capacity * 2) 2
      ∧ ((SimpleVector.mkDefault : SimpleVector Int).PushBack 5).capacity
        = max ((SimpleVector.mkDefault : SimpleVector Int).capacity * 2)
            ((SimpleVector.mkDefault : SimpleVector Int).size + 1)
      ∧ (((SimpleVector.mkDefault : SimpleVector Int).Insert 0 5).1).capacity
        = max ((SimpleVector.mkDefault : SimpleVector Int).capacity * 2)
            ((SimpleVector.mkDefault : SimpleVector Int).size + 1)
      ∧ ((SimpleVector.mkDefault : SimpleVector Int).pushAll [1, 2, 3]).size
        = [1, 2, 3].length
      ∧ ((SimpleVector.mkDefault : SimpleVector Int).PushBack 6).capacity = 1) :=
  ⟨by decide, by decide,
    growth_policy SimpleVector.mkDefault SimpleVector.mkDefault 2 5 6 [1, 2, 3]
      (by decide) (by decide)⟩

/-- C4: checked access `At` fails with the out-of-range error exactly when
`index ≥ size`; `At(size)` always fails; and for a non-empty container
`At(size - 1)` succeeds and returns the element at index `size - 1`. -/
theorem at_checked_spec {α : Type} [Inhabited α] (v : SimpleVector α)
    (i : Nat) (hsz : v.size ≤ v.a.length) :
    ((∃ e, v.At i = Except.error e) ↔ v.size ≤ i)
    ∧ v.At v.size = Except.error "index out of range"
    ∧ (0 < v.size →
        v.At (v.size - 1) = Except.ok (v.toList.getD (v.size - 1) default)) := by
  refine ⟨⟨?_, ?_⟩, ?_, ?_⟩
  · rintro ⟨e, he⟩
    by_cases h : v.size ≤ i
    · exact h
    · unfold SimpleVector.At at he
      rw [if_neg (show ¬i ≥ v.size from by omega)] at he
      simp at he
  · intro h
    refine ⟨"index out of range", ?_⟩
    unfold SimpleVector.At
    rw [if_pos (show i ≥ v.size from h)]
  · unfold SimpleVector.At
    rw [if_pos (show v.size ≥ v.size from Nat.le_refl _)]
  · intro h
    unfold SimpleVector.At
    rw [if_neg (show ¬v.size - 1 ≥ v.size from by omega)]
    unfold SimpleVector.toList
    rw [SimpleVector.getD_take_of_lt _ _ _ (by omega) (by omega)]

/-- C4 witness: `At` on a two-element `Int` container at indices 5, 2, 1. -/
theorem at_checked_spec_witness :
    (⟨[3, 4], 2, 2⟩ : SimpleVector Int).size ≤ (⟨[3, 4], 2, 2⟩ : SimpleVector Int).a.length
    ∧ (((∃ e, (⟨[3, 4], 2, 2⟩ : SimpleVector Int).At 5 = Except.error e)
          ↔ (⟨[3, 4], 2, 2⟩ : SimpleVector Int).size ≤ 5)
      ∧ (⟨[3, 4], 2, 2⟩ : SimpleVector Int).At (⟨[3, 4], 2, 2⟩ : SimpleVector Int).size
          = Except.error "index out of range"
      ∧ (0 < (⟨[3, 4], 2, 2⟩ : SimpleVector Int).size →
          (⟨[3, 4], 2, 2⟩ : SimpleVector Int).At
              ((⟨[3, 4], 2, 2⟩ : SimpleVector Int).size - 1)
            = Except.ok ((⟨[3, 4], 2, 2⟩ : SimpleVector Int).toList.getD
                ((⟨[3, 4], 2, 2⟩ : SimpleVector Int).size - 1) default))) :=
  ⟨by decide, at_checked_spec (⟨[3, 4], 2, 2⟩ : SimpleVector Int) 5 (by decide)⟩

/-- C5: `Insert` at a position `i` within `[begin, end]` shifts the elements
from `i` one slot rightward, writes the value into the gap, increases the
size by one and returns the insertion position; inserting 9 before index 1
of the literal container `{1,2,3}` yields `{1,9,2,3}` with size 4. -/
theorem insert_spec {α : Type} [Inhabited α] (v : SimpleVector α) (i : Nat)
    (x : α) (hi : i ≤ v.size) (hlen : v.a.length = v.capacity)
    (hinv : v.size ≤ v.capacity) :
    (v.Insert i x).1.size = v.size + 1
    ∧ (v.Insert i x).2 = i
    ∧ (v.Insert i x).1.toList = v.toList.take i ++ x :: v.toList.drop i
    ∧ (v.Insert i x).1.toList.getD i default = x
    ∧ ((SimpleVector.mkFromList ([1, 2, 3] : List Int)).Insert 1 9).1.toList
        = [1, 9, 2, 3]
    ∧ ((SimpleVector.mkFromList ([1, 2, 3] : List Int)).Insert 1 9).1.size = 4 := by
  refine ⟨SimpleVector.size_Insert v i x, rfl,
    SimpleVector.toList_Insert v i x hi hlen hinv, ?_, by decide, rfl⟩
  rw [SimpleVector.toList_Insert v i x hi hlen hinv]
  exact SimpleVector.getD_snoc_mid _ _ _ _
    (by simp only [SimpleVector.toList, List.length_take]; omega)

/-- C5 witness: the insert contract instantiated on the `{1,2,3}` container
at position 1 with value 9. -/
theorem insert_spec_witness :
    1 ≤ (SimpleVector.mkFromList ([1, 2, 3] : List Int)).size
    ∧ (SimpleVector.mkFromList ([1, 2, 3] : List Int)).a.length
        = (SimpleVector.mkFromList ([1, 2, 3] : List Int)).capacity
    ∧ (SimpleVector.mkFromList ([1, 2, 3] : List Int)).size
        ≤ (SimpleVector.mkFromList ([1, 2, 3] : List Int)).capacity
    ∧ (((SimpleVector.mkFromList ([1, 2, 3] : List Int)).Insert 1 9).1.size
          = (SimpleVector.mkFromList ([1, 2, 3] : List Int)).size + 1
      ∧ ((SimpleVector.mkFromList ([1, 2, 3] : List Int)).Insert 1 9).2 = 1
      ∧ ((SimpleVector.mkFromList ([1, 2, 3] : List Int)).Insert 1 9).1.toList
          = (SimpleVector.mkFromList ([1, 2, 3] : List Int)).toList.take 1
            ++ 9 :: (SimpleVector.mkFromList ([1, 2, 3] : List Int)).toList.drop 1
      ∧ ((SimpleVector.mkFromList ([1, 2, 3] : List Int)).Insert 1 9).1.toList.getD
          1 default = 9
      ∧ ((SimpleVector.mkFromList ([1, 2, 3] : List Int)).Insert 1 9).1.toList
          = [1, 9, 2, 3]
      ∧ ((SimpleVector.mkFromList ([1, 2, 3] : List Int)).Insert 1 9).1.size = 4) :=
  ⟨by decide, by decide, by decide,
    insert_spec (SimpleVector.mkFromList ([1, 2, 3] : List Int)) 1 9
      (by decide) (by decide) (by decide)⟩

/-- C6: inserting a value at a position within the valid insertion range and
then erasing at the same logical position restores the original element
sequence and the original size. -/
theorem insert_erase_roundtrip {α : Type} [Inhabited α] (v : SimpleVector α)
    (i : Nat) (x : α) (hi : i ≤ v.size) (hlen : v.a.length = v.capacity)
    (hinv : v.size ≤ v.capacity) :
    ((v.Insert i x).1.Erase i).1.toList = v.toList
    ∧ ((v.Insert i x).1.Erase i).1.size = v.size := by
  have hw1 : (v.Insert i x).1.size = v.size + 1 := SimpleVector.size_Insert v i x
  have hw2 : (v.Insert i x).1.a.length = v.ResizeForOneElement.a.length :=
    SimpleVector.length_a_Insert v i x
  have hRs : v.size + 1 ≤ v.ResizeForOneElement.a.length :=
    SimpleVector.lt_length_a_ResizeForOneElement v hlen hinv
  constructor
  · rw [SimpleVector.toList_Erase _ i (by omega) (by omega),
      SimpleVector.toList_Insert v i x hi hlen hinv]
    have hA : (v.toList.take i).length = i := by
      simp only [SimpleVector.toList, List.length_take]
      omega
    have h1 := List.take_left (v.toList.take i) (x :: v.toList.drop i)
    rw [hA] at h1
    have h2 := List.drop_left (v.toList.take i ++ [x]) (v.toList.drop i)
    rw [show (v.toList.take i ++ [x]).length = i + 1 from
      by simp [hA]] at h2
    rw [h1, show v.toList.take i ++ x :: v.toList.drop i
        = (v.toList.take i ++ [x]) ++ v.toList.drop i from by simp, h2]
    exact List.take_append_drop i v.toList
  · rw [SimpleVector.size_Erase, hw1]
    omega

/-- C6 witness: insert-then-erase at position 1 of the `{1,2,3}` container. -/
theorem insert_erase_roundtrip_witness :
    1 ≤ (SimpleVector.mkFromList ([1, 2, 3] : List Int)).size
    ∧ (SimpleVector.mkFromList ([1, 2, 3] : List Int)).a.length
        = (SimpleVector.mkFromList ([1, 2, 3] : List Int)).capacity
    ∧ (SimpleVector.mkFromList ([1, 2, 3] : List Int)).size
        ≤ (SimpleVector.mkFromList ([1, 2, 3] : List Int)).capacity
    ∧ ((((SimpleVector.mkFromList ([1, 2, 3] : List Int)).Insert 1 9).1.Erase 1).1.toList
          = (SimpleVector.mkFromList ([1, 2, 3] : List Int)).toList
      ∧ (((SimpleVector.mkFromList ([1, 2, 3] : List Int)).Insert 1 9).1.Erase 1).1.size
          = (SimpleVector.mkFromList ([1, 2, 3] : List Int)).size) :=
  ⟨by decide, by decide, by decide,
    insert_erase_roundtrip (SimpleVector.mkFromList ([1, 2, 3] : List Int)) 1 9
      (by decide) (by decide) (by decide)⟩

/-- C2 (failing input for the move-construction claim): move-constructing
from the `Int` container `{1,2,3}` (size 3, capacity 3) performs 3
element-level move operations through a freshly allocated buffer — not a
direct takeover of the source's buffer with zero element transfers — while
the observable outcome (destination equal to the pre-move state, source left
with size 0 and capacity 0) does hold. -/
theorem move_ctor_failing_input :
    SimpleVector.moveCtorTransfers (⟨[1, 2, 3], 3, 3⟩ : SimpleVector Int) = 3
    ∧ SimpleVector.moveCtorTransfers (⟨[1, 2, 3], 3, 3⟩ : SimpleVector Int) ≠ 0
    ∧ (SimpleVector.moveCtor (⟨[1, 2, 3], 3, 3⟩ : SimpleVector Int)).1.toList
        = [1, 2, 3]
    ∧ (SimpleVector.moveCtor (⟨[1, 2, 3], 3, 3⟩ : SimpleVector Int)).1.size = 3
    ∧ (SimpleVector.moveCtor (⟨[1, 2, 3], 3, 3⟩ : SimpleVector Int)).1.capacity = 3
    ∧ (SimpleVector.moveCtor (⟨[1, 2, 3], 3, 3⟩ : SimpleVector Int)).2.size = 0
    ∧ (SimpleVector.moveCtor (⟨[1, 2, 3], 3, 3⟩ : SimpleVector Int)).2.capacity = 0 :=
  ⟨rfl, by decide, by decide, rfl, rfl, rfl, rfl⟩

/-- C3: copy assignment makes the left-hand side compare equal to the
right-hand side and is atomic on failure: an empty right-hand side clears the
left-hand side in place (same buffer, same capacity); otherwise a full
temporary copy is constructed and swapped in, and if constructing the
temporary fails the left-hand side is completely unmodified. -/
theorem copy_assign_spec {α : Type} [Inhabited α] [DecidableEq α]
    (lhs rhs : SimpleVector α) (ok : Bool) (hr : rhs.size ≤ rhs.a.length) :
    (rhs.size = 0 →
      lhs.operatorAssign false rhs ok = (lhs.Clear, true)
      ∧ lhs.Clear.capacity = lhs.capacity
      ∧ lhs.Clear.a = lhs.a
      ∧ SimpleVector.eqOp false (lhs.operatorAssign false rhs ok).1 rhs = true)
    ∧ (rhs.size ≠ 0 →
      lhs.operatorAssign false rhs true = (SimpleVector.copyCtor rhs, true)
      ∧ SimpleVector.eqOp false (lhs.operatorAssign false rhs true).1 rhs = true)
    ∧ (rhs.size ≠ 0 → lhs.operatorAssign false rhs false = (lhs, false)) := by
  refine ⟨fun h0 => ⟨SimpleVector.operatorAssign_empty lhs rhs ok h0, rfl, rfl, ?_⟩,
    fun hne => ⟨SimpleVector.operatorAssign_copy lhs rhs hne, ?_⟩,
    fun hne => SimpleVector.operatorAssign_fail lhs rhs hne⟩
  · rw [SimpleVector.operatorAssign_empty lhs rhs ok h0]
    apply SimpleVector.eqOp_true_of
    · exact h0.symm
    · show lhs.Clear.a.take lhs.Clear.size = rhs.a.take rhs.size
      rw [h0]
      rfl
  · rw [SimpleVector.operatorAssign_copy lhs rhs hne]
    exact SimpleVector.eqOp_true_of _ _ (SimpleVector.size_copyCtor rhs)
      (SimpleVector.toList_copyCtor rhs hr)

/-- C3 witness: assignment of the one-element container `{5}` onto `{9}`,
with a successful allocation. -/
theorem copy_assign_spec_witness :
    (⟨[5], 1, 1⟩ : SimpleVector Int).size ≤ (⟨[5], 1, 1⟩ : SimpleVector Int).a.length
    ∧ (((⟨[5], 1, 1⟩ : SimpleVector Int).size = 0 →
        (⟨[9], 1, 1⟩ : SimpleVector Int).operatorAssign false
            (⟨[5], 1, 1⟩ : SimpleVector Int) true
          = ((⟨[9], 1, 1⟩ : SimpleVector Int).Clear, true)
        ∧ (⟨[9], 1, 1⟩ : SimpleVector Int).Clear.capacity
          = (⟨[9], 1, 1⟩ : SimpleVector Int).capacity
        ∧ (⟨[9], 1, 1⟩ : SimpleVector Int).Clear.a
          = (⟨[9], 1, 1⟩ : SimpleVector Int).a
        ∧ SimpleVector.eqOp false
            ((⟨[9], 1, 1⟩ : SimpleVector Int).operatorAssign false
              (⟨[5], 1, 1⟩ : SimpleVector Int) true).1
            (⟨[5], 1, 1⟩ : SimpleVector Int) = true)
      ∧ ((⟨[5], 1, 1⟩ : SimpleVector Int).size ≠ 0 →
        (⟨[9], 1, 1⟩ : SimpleVector Int).operatorAssign false
            (⟨[5], 1, 1⟩ : SimpleVector Int) true
          = (SimpleVector.copyCtor (⟨[5], 1, 1⟩ : SimpleVector Int), true)
        ∧ SimpleVector.eqOp false
            ((⟨[9], 1, 1⟩ : SimpleVector Int).operatorAssign false
              (⟨[5], 1, 1⟩ : SimpleVector Int) true).1
            (⟨[5], 1, 1⟩ : SimpleVector Int) = true)
      ∧ ((⟨[5], 1, 1⟩ : SimpleVector Int).size ≠ 0 →
        (⟨[9], 1, 1⟩ : SimpleVector Int).operatorAssign false
            (⟨[5], 1, 1⟩ : SimpleVector Int) false
          = ((⟨[9], 1, 1⟩ : SimpleVector Int), false))) :=
  ⟨by decide,
    copy_assign_spec (⟨[9], 1, 1⟩ : SimpleVector Int)
      (⟨[5], 1, 1⟩ : SimpleVector Int) true (by decide)⟩

/-- C7: `Reserve` above the current capacity sets the capacity to exactly the
requested value and leaves the size unchanged; concretely, reserving 10 on
an empty container gives size 0 / capacity 10, five appends give size 5 with
capacity still 10, and six further appends give size 11 with capacity 20. -/
theorem reserve_spec {α : Type} [Inhabited α] (v : SimpleVector α) (n : Nat)
    (hn : v.capacity < n) :
    (v.Reserve n).capacity = n
    ∧ (v.Reserve n).size = v.size
    ∧ ((SimpleVector.mkDefault : SimpleVector Int).Reserve 10).size = 0
    ∧ ((SimpleVector.mkDefault : SimpleVector Int).Reserve 10).capacity = 10
    ∧ (((SimpleVector.mkDefault : SimpleVector Int).Reserve 10).pushAll
        [1, 2, 3, 4, 5]).size = 5
    ∧ (((SimpleVector.mkDefault : SimpleVector Int).Reserve 10).pushAll
        [1, 2, 3, 4, 5]).capacity = 10
    ∧ (((SimpleVector.mkDefault : SimpleVector Int).Reserve 10).pushAll
        [1, 2, 3, 4, 5, 6, 7, 8, 9, 10, 11]).size = 11
    ∧ (((SimpleVector.mkDefault : SimpleVector Int).Reserve 10).pushAll
        [1, 2, 3, 4, 5, 6, 7, 8, 9, 10, 11]).capacity = 20 := by
  refine ⟨?_, SimpleVector.size_Reserve v n, by decide, by decide, by decide,
    by decide, by decide, by decide⟩
  rw [SimpleVector.capacity_Reserve, if_pos hn]

/-- C7 witness: the reservation contract instantiated on the empty `Int`
container with target capacity 10. -/
theorem reserve_spec_witness :
    (SimpleVector.mkDefault : SimpleVector Int).capacity < 10
    ∧ (((SimpleVector.mkDefault : SimpleVector Int).Reserve 10).capacity = 10
      ∧ ((SimpleVector.mkDefault : SimpleVector Int).Reserve 10).size
          = (SimpleVector.mkDefault : SimpleVector Int).size
      ∧ ((SimpleVector.mkDefault : SimpleVector Int).Reserve 10).size = 0
      ∧ ((SimpleVector.mkDefault : SimpleVector Int).Reserve 10).capacity = 10
      ∧ (((SimpleVector.mkDefault : SimpleVector Int).Reserve 10).pushAll
          [1, 2, 3, 4, 5]).size = 5
      ∧ (((SimpleVector.mkDefault : SimpleVector Int).Reserve 10).pushAll
          [1, 2, 3, 4, 5]).capacity = 10
      ∧ (((SimpleVector.mkDefault : SimpleVector Int).Reserve 10).pushAll
          [1, 2, 3, 4, 5, 6, 7, 8, 9, 10, 11]).size = 11
      ∧ (((SimpleVector.mkDefault : SimpleVector Int).Reserve 10).pushAll
          [1, 2, 3, 4, 5, 6, 7, 8, 9, 10, 11]).capacity = 20) :=
  ⟨by decide, reserve_spec (SimpleVector.mkDefault : SimpleVector Int) 10 (by decide)⟩

/-- C9: self-assignment (detected through the address comparison
`this != &rhs`) performs no work and leaves the container unchanged — same
size, same capacity, same element sequence. -/
theorem self_assign_noop {α : Type} [Inhabited α] (v : SimpleVector α)
    (ok : Bool) :
    v.operatorAssign true v ok = (v, true)
    ∧ (v.operatorAssign true v ok).1.size = v.size
    ∧ (v.operatorAssign true v ok).1.capacity = v.capacity
    ∧ (v.operatorAssign true v ok).1.toList = v.toList :=
  ⟨rfl, rfl, rfl, rfl⟩

/-- C10: `PopBack` and `Erase` never change the capacity; `PopBack`
decrements the size by one and keeps the first `size - 1` elements, and
`Erase` keeps the elements before the erased index. -/
theorem pop_erase_frame {α : Type} [Inhabited α] (v w : SimpleVector α)
    (i : Nat) (hv : 0 < v.size) (hw : i < w.size)
    (hwsz : w.size ≤ w.a.length) :
    v.PopBack.capacity = v.capacity
    ∧ v.PopBack.size = v.size - 1
    ∧ v.PopBack.toList = v.toList.take (v.size - 1)
    ∧ (w.Erase i).1.capacity = w.capacity
    ∧ (w.Erase i).1.size = w.size - 1
    ∧ (w.Erase i).1.toList.take i = w.toList.take i := by
  refine ⟨rfl, rfl, ?_, rfl, rfl, SimpleVector.take_toList_Erase w i hw hwsz⟩
  show v.a.take (v.size - 1) = (v.a.take v.size).take (v.size - 1)
  rw [List.take_take, Nat.min_eq_left (by omega)]

/-- C10 witness: `PopBack` on `{1,2}` and `Erase` at index 1 of `{1,2,3}`. -/
theorem pop_erase_frame_witness :
    0 < (⟨[1, 2], 2, 2⟩ : SimpleVector Int).size
    ∧ 1 < (⟨[1, 2, 3], 3, 3⟩ : SimpleVector Int).size
    ∧ (⟨[1, 2, 3], 3, 3⟩ : SimpleVector Int).size
        ≤ (⟨[1, 2, 3], 3, 3⟩ : SimpleVector Int).a.length
    ∧ ((⟨[1, 2], 2, 2⟩ : SimpleVector Int).PopBack.capacity
          = (⟨[1, 2], 2, 2⟩ : SimpleVector Int).capacity
      ∧ (⟨[1, 2], 2, 2⟩ : SimpleVector Int).PopBack.size
          = (⟨[1, 2], 2, 2⟩ : SimpleVector Int).size - 1
      ∧ (⟨[1, 2], 2, 2⟩ : SimpleVector Int).PopBack.toList
          = (⟨[1, 2], 2, 2⟩ : SimpleVector Int).toList.take
              ((⟨[1, 2], 2, 2⟩ : SimpleVector Int).size - 1)
      ∧ ((⟨[1, 2, 3], 3, 3⟩ : SimpleVector Int).Erase 1).1.capacity
          = (⟨[1, 2, 3], 3, 3⟩ : SimpleVector Int).capacity
      ∧ ((⟨[1, 2, 3], 3, 3⟩ : SimpleVector Int).Erase 1).1.size
          = (⟨[1, 2, 3], 3, 3⟩ : SimpleVector Int).size - 1
      ∧ ((⟨[1, 2, 3], 3, 3⟩ : SimpleVector Int).Erase 1).1.toList.take 1
          = (⟨[1, 2, 3], 3, 3⟩ : SimpleVector Int).toList.take 1) :=
  ⟨by decide, by decide, by decide,
    pop_erase_frame (⟨[1, 2], 2, 2⟩ : SimpleVector Int)
      (⟨[1, 2, 3], 3, 3⟩ : SimpleVector Int) 1 (by decide) (by decide) (by decide)⟩
